import Mathlib

/-!
Verification of the region-selection / undo-redo / compositing core of the
infographic text fixer (src/index.tsx).

The embedding translates the React component's state hooks into an explicit
`AppState` record, and each event handler into a pure state-transition
function.  Pointer coordinates are JS numbers used only through `min`, `abs`,
comparison and exact arithmetic here, so they are embedded as rationals.
The JS object `{ [key: number]: string }` used for replacement texts is
embedded as an association list keyed by region id.
-/

/-- A user-drawn rectangle (interface `SelectionArea` in src/index.tsx). -/
structure SelectionArea where
  id : Nat
  x : ℚ
  y : ℚ
  w : ℚ
  h : ℚ
deriving DecidableEq

/-- One history snapshot (interface `HistoryState` in src/index.tsx). -/
structure HistoryState where
  selections : List SelectionArea
  replacements : List (Nat × String)
deriving DecidableEq

/-- A decoded raster image: dimensions plus a pixel-colour function.
Colours are abstracted as naturals. -/
structure Bitmap where
  width : Nat
  height : Nat
  pix : Nat → Nat → Nat

/-- The component state of `App` (the useState hooks of src/index.tsx that
the verified core reads or writes), plus the `isDrawing`/`startPos` refs and
an id counter standing in for `Date.now()`. -/
structure AppState where
  image : Option String
  isProcessing : Bool
  selections : List SelectionArea
  replacements : List (Nat × String)
  resultImage : Option Bitmap
  history : List HistoryState
  historyIndex : Int
  isDrawing : Bool
  startPos : ℚ × ℚ
  nextId : Nat

/-- The initial component state: no image, no selections, empty history with
cursor -1. -/
def initState : AppState :=
  { image := none
    isProcessing := false
    selections := []
    replacements := []
    resultImage := none
    history := []
    historyIndex := -1
    isDrawing := false
    startPos := (0, 0)
    nextId := 0 }

/-- `pushToHistory` (src/index.tsx lines 97-108): truncate everything after
the cursor (`prev.slice(0, historyIndex + 1)`), append the new snapshot
(deep-copying is implicit in this value-level embedding), drop the oldest
entry when the length exceeds 50 (`updated.slice(1)`), and set the cursor to
`min (historyIndex + 1) 49`. -/
def pushToHistory (st : AppState) (newSelections : List SelectionArea)
    (newReplacements : List (Nat × String)) : AppState :=
  let newState : HistoryState := ⟨newSelections, newReplacements⟩
  let truncated := st.history.take (st.historyIndex + 1).toNat
  let updated := truncated ++ [newState]
  let newHistory := if 50 < updated.length then updated.drop 1 else updated
  { st with history := newHistory, historyIndex := min (st.historyIndex + 1) 49 }

/-- `undo` (src/index.tsx lines 110-119).  When the cursor is positive, move
it back one entry and load that snapshot into the live state; when it is 0,
load the canonical empty state and move the cursor to -1; otherwise no-op.
The `none` branch of the match is unreachable for states satisfying the
history invariant (in JS an out-of-range access would fault there). -/
def undo (st : AppState) : AppState :=
  if 0 < st.historyIndex then
    match st.history[(st.historyIndex - 1).toNat]? with
    | some prevState =>
        { st with selections := prevState.selections
                  replacements := prevState.replacements
                  historyIndex := st.historyIndex - 1 }
    | none => st
  else if st.historyIndex = 0 then
    { st with selections := [], replacements := [], historyIndex := -1 }
  else st

/-- `redo` (src/index.tsx lines 121-128).  When the cursor is strictly below
the last index, advance it and load that snapshot; otherwise no-op. -/
def redo (st : AppState) : AppState :=
  if st.historyIndex < (st.history.length : Int) - 1 then
    match st.history[(st.historyIndex + 1).toNat]? with
    | some nextState =>
        { st with selections := nextState.selections
                  replacements := nextState.replacements
                  historyIndex := st.historyIndex + 1 }
    | none => st
  else st

/-- `onMouseDown` (src/index.tsx lines 207-218): no-op while a restore is in
flight or when the region count has reached `MAX_SELECTIONS` (10); otherwise
record the start position, mark a gesture active, and append a fresh
zero-size region at the pointer position. -/
def onMouseDown (st : AppState) (pos : ℚ × ℚ) : AppState :=
  if st.isProcessing then st
  else if 10 ≤ st.selections.length then st
  else
    { st with isDrawing := true
              startPos := pos
              selections := st.selections ++ [⟨st.nextId, pos.1, pos.2, 0, 0⟩]
              nextId := st.nextId + 1 }

/-- JS `Math.min` on (non-NaN) numbers. -/
def jsMin (a b : ℚ) : ℚ := if a ≤ b then a else b

/-- JS `Math.abs` on (non-NaN) numbers. -/
def jsAbs (q : ℚ) : ℚ := if q < 0 then -q else q

/-- `jsMin` is the lattice `min` of the rationals. -/
theorem jsMin_eq_min (a b : ℚ) : jsMin a b = min a b := (min_def a b).symm

/-- `jsAbs` is the absolute value of the rationals. -/
theorem jsAbs_eq_abs (q : ℚ) : jsAbs q = |q| := by
  unfold jsAbs
  rcases lt_or_le q 0 with h | h
  · rw [if_pos h, abs_of_neg h]
  · rw [if_neg (not_lt.mpr h), abs_of_nonneg h]

/-- `onMouseMove` (src/index.tsx lines 220-232): no-op when no gesture is
active; otherwise rewrite the last region's rectangle to the axis-aligned
bounding box of the gesture start position and the current pointer position
(the `if (last)` guard makes this a no-op on an empty selection list). -/
def onMouseMove (st : AppState) (pos : ℚ × ℚ) : AppState :=
  if st.isDrawing = false then st
  else
    match st.selections.getLast? with
    | none => st
    | some last =>
        { st with selections := st.selections.dropLast ++
            [{ last with
                x := jsMin st.startPos.1 pos.1
                y := jsMin st.startPos.2 pos.2
                w := jsAbs (pos.1 - st.startPos.1)
                h := jsAbs (pos.2 - st.startPos.2) }] }

/-- `onMouseUp` (src/index.tsx line 234): when a gesture is active, clear
the flag and commit the live state to history. -/
def onMouseUp (st : AppState) : AppState :=
  if st.isDrawing then
    pushToHistory { st with isDrawing := false } st.selections st.replacements
  else st

/-- Lookup of `replacements[id] || ""` (JS: an absent key yields `undefined`,
which `|| ""` turns into the empty string; a stored empty string also yields
the empty string). -/
def lookupRepl (replacements : List (Nat × String)) (id : Nat) : String :=
  (((replacements.find? (fun p => p.1 == id)).map Prod.snd).getD "")

/-- JS `String.prototype.trim`: strip leading and trailing whitespace. -/
def jsTrim (s : String) : String :=
  ⟨((s.data.dropWhile Char.isWhitespace).reverse.dropWhile
      Char.isWhitespace).reverse⟩

/-- `selections.filter(s => (replacements[s.id] || "").trim() !== "")`
(src/index.tsx line 261): keep exactly the regions whose replacement text is
non-empty after trimming; geometry is not consulted. -/
def filteredSelections (selections : List SelectionArea)
    (replacements : List (Nat × String)) : List SelectionArea :=
  selections.filter (fun s => jsTrim (lookupRepl replacements s.id) != "")

/-- Membership test of a pixel (integer coordinates) in a region's rectangle,
matching the canvas semantics of painting the half-open box
`[x, x + w) × [y, y + h)`. -/
def regionContains (s : SelectionArea) (px py : Nat) : Prop :=
  (s.x ≤ (px : ℚ) ∧ (px : ℚ) < s.x + s.w) ∧ (s.y ≤ (py : ℚ) ∧ (py : ℚ) < s.y + s.h)

instance (s : SelectionArea) (px py : Nat) : Decidable (regionContains s px py) := by
  unfold regionContains; infer_instance

/-- Sampling the model image at a source-space pixel: the compositing loop
(src/index.tsx lines 331-341) maps each destination pixel through the scale
factors `aiImg.width / originalImg.width` and `aiImg.height /
originalImg.height` into the model image and resamples; floor sampling
stands in for the canvas's resampling here. -/
def modelSample (source model : Bitmap) (px py : Nat) : Nat :=
  let sx : ℚ := (px : ℚ) * ((model.width : ℚ) / (source.width : ℚ))
  let sy : ℚ := (py : ℚ) * ((model.height : ℚ) / (source.height : ℚ))
  model.pix sx.floor.toNat sy.floor.toNat

/-- One `ctx.drawImage(aiImg, ...)` call of the compositing loop: overwrite
the pixels inside region `s` with the scaled model patch, leaving all other
pixels as painted so far. -/
def paintRegion (source model : Bitmap) (acc : Nat → Nat → Nat)
    (s : SelectionArea) : Nat → Nat → Nat :=
  fun px py => if regionContains s px py then modelSample source model px py else acc px py

/-- The compositing pipeline (src/index.tsx lines 322-341): allocate a canvas
with the source's dimensions, draw the source onto it, then paint each
filtered region's patch from the model image in stored order (later regions
overwrite earlier ones). -/
def composite (source model : Bitmap) (regions : List SelectionArea) : Bitmap :=
  { width := source.width
    height := source.height
    pix := regions.foldl (paintRegion source model) source.pix }

/-- The externally observable outcome of one `handleRestore` invocation. -/
inductive RestoreOutcome
  | noOp
  | emptyInstruction
  | success
  | failed
deriving DecidableEq

/-- One part of the generative model's response; the code scans
`response.candidates[0].content.parts` for the first part carrying
`inlineData`. -/
inductive ResponsePart
  | textPart (s : String)
  | imagePart (img : Bitmap)

/-- The scan of src/index.tsx lines 306-308: the first image payload of the
response parts, if any. -/
def firstImagePart : List ResponsePart → Option Bitmap
  | [] => none
  | ResponsePart.imagePart img :: _ => some img
  | ResponsePart.textPart _ :: rest => firstImagePart rest

/-- `handleRestore` (src/index.tsx lines 258-352), with the external model
call abstracted as its result: `Except.error` models a failed call (network,
auth, model error — anything the `catch` block receives before an image was
produced), `Except.ok parts` a response.  `sourceBitmap` is the decoded
bitmap of `st.image`.  The function returns the next state together with the
outcome.  Control flow from the source: return silently when no image is
loaded or no selection exists; alert (`EmptyInstructionError`) when no
selected region has non-whitespace replacement text, before any external
call; on a failed call or a response without an image payload the catch
block surfaces one error and commits nothing; on success the composite of
the source and the model image over the filtered regions becomes the result
image.  `isProcessing` ends false on every path that entered the try block
(the `finally` clause). -/
def handleRestore (st : AppState) (sourceBitmap : Bitmap)
    (resp : Except Unit (List ResponsePart)) : AppState × RestoreOutcome :=
  if st.image = none ∨ st.selections = [] then (st, RestoreOutcome.noOp)
  else
    let filtered := filteredSelections st.selections st.replacements
    if filtered = [] then (st, RestoreOutcome.emptyInstruction)
    else
      match resp with
      | Except.error _ => ({ st with isProcessing := false }, RestoreOutcome.failed)
      | Except.ok parts =>
          match firstImagePart parts with
          | none => ({ st with isProcessing := false }, RestoreOutcome.failed)
          | some aiImg =>
              ({ st with
                  resultImage := some (composite sourceBitmap aiImg filtered)
                  isProcessing := false }, RestoreOutcome.success)

/-!
Reference-semantics model of the selection/history machinery.

The value-level `AppState` above is adequate for every property except
snapshot immutability, which is a statement about JS object identity:
`pushToHistory` deep-copies (`JSON.parse(JSON.stringify(...))`), but `undo`
installs `prevState.selections` — the array object owned by the history
snapshot — as the live selections array, and `onMouseMove` mutates the last
live region object in place.  To settle that claim faithfully, this model
makes the heap explicit: region objects live at numeric addresses, the live
selection list and every snapshot hold addresses, and each snapshot also
records (as a ghost field) the deep value it had at its commit point.
-/

/-- A snapshot in the reference-semantics model: the addresses of the region
objects the snapshot's array holds, its replacement map, and ghost fields
recording the deep values at commit time. -/
structure HSnapshot where
  addrs : List Nat
  repl : List (Nat × String)
  committedSelections : List SelectionArea
  committedRepl : List (Nat × String)
deriving DecidableEq

/-- Component state in the reference-semantics model.  `heap` maps addresses
to region objects; `live` is the selections array (a list of addresses). -/
structure HeapState where
  heap : List (Nat × SelectionArea)
  nextAddr : Nat
  live : List Nat
  replacements : List (Nat × String)
  history : List HSnapshot
  historyIndex : Int
  isDrawing : Bool
  startPos : ℚ × ℚ
  isProcessing : Bool
deriving DecidableEq

/-- Dereference one address (absent addresses yield a dummy region; every
address the operations produce is allocated). -/
def heapGet (heap : List (Nat × SelectionArea)) (a : Nat) : SelectionArea :=
  (((heap.find? (fun p => p.1 == a)).map Prod.snd).getD ⟨0, 0, 0, 0, 0⟩)

/-- In-place update of the object at address `a`. -/
def heapSet (heap : List (Nat × SelectionArea)) (a : Nat) (v : SelectionArea) :
    List (Nat × SelectionArea) :=
  heap.map (fun p => if p.1 = a then (a, v) else p)

/-- Dereference a list of addresses to the region values they hold. -/
def derefAll (heap : List (Nat × SelectionArea)) (addrs : List Nat) :
    List SelectionArea :=
  addrs.map (heapGet heap)

/-- The empty initial state of the reference-semantics model. -/
def hInit : HeapState :=
  { heap := []
    nextAddr := 0
    live := []
    replacements := []
    history := []
    historyIndex := -1
    isDrawing := false
    startPos := (0, 0)
    isProcessing := false }

/-- `pushToHistory` in the reference-semantics model: the JSON round-trip
allocates fresh objects holding the current deep values of the live regions,
and the snapshot's array holds those fresh addresses.  The replacement map
is spread into a fresh object whose string values are immutable, so it is
kept by value.  History truncation, the 50-entry cap and the cursor update
are as in the value-level `pushToHistory`. -/
def hPush (st : HeapState) : HeapState :=
  let values := derefAll st.heap st.live
  let fresh := (List.range values.length).map (fun i => i + st.nextAddr)
  let snap : HSnapshot := ⟨fresh, st.replacements, values, st.replacements⟩
  let truncated := st.history.take (st.historyIndex + 1).toNat
  let updated := truncated ++ [snap]
  { st with heap := st.heap ++ fresh.zip values
            nextAddr := st.nextAddr + values.length
            history := if 50 < updated.length then updated.drop 1 else updated
            historyIndex := min (st.historyIndex + 1) 49 }

/-- `onMouseDown` in the reference-semantics model: allocates the new region
object at a fresh address and appends that address to the live array. -/
def hMouseDown (st : HeapState) (pos : ℚ × ℚ) : HeapState :=
  if st.isProcessing then st
  else if 10 ≤ st.live.length then st
  else
    { st with isDrawing := true
              startPos := pos
              heap := st.heap ++ [(st.nextAddr, ⟨st.nextAddr, pos.1, pos.2, 0, 0⟩)]
              live := st.live ++ [st.nextAddr]
              nextAddr := st.nextAddr + 1 }

/-- `onMouseMove` in the reference-semantics model: `last.x = ...` etc. are
in-place writes through the last live address — the spread `[...prev]`
copies the array, not the region objects it holds. -/
def hMouseMove (st : HeapState) (pos : ℚ × ℚ) : HeapState :=
  if st.isDrawing = false then st
  else
    match st.live.getLast? with
    | none => st
    | some a =>
        let old := heapGet st.heap a
        let upd : SelectionArea :=
          { old with
              x := jsMin st.startPos.1 pos.1
              y := jsMin st.startPos.2 pos.2
              w := jsAbs (pos.1 - st.startPos.1)
              h := jsAbs (pos.2 - st.startPos.2) }
        { st with heap := heapSet st.heap a upd }

/-- `onMouseUp` in the reference-semantics model. -/
def hMouseUp (st : HeapState) : HeapState :=
  if st.isDrawing then hPush { st with isDrawing := false } else st

/-- `undo` in the reference-semantics model: `setSelections(
prevState.selections)` installs the snapshot's own array — its addresses —
as the live selections, without copying. -/
def hUndo (st : HeapState) : HeapState :=
  if 0 < st.historyIndex then
    match st.history[(st.historyIndex - 1).toNat]? with
    | some prevState =>
        { st with live := prevState.addrs
                  replacements := prevState.repl
                  historyIndex := st.historyIndex - 1 }
    | none => st
  else if st.historyIndex = 0 then
    { st with live := [], replacements := [], historyIndex := -1 }
  else st

/-- `redo` in the reference-semantics model; like `undo`, it aliases the
snapshot's array into the live state. -/
def hRedo (st : HeapState) : HeapState :=
  if st.historyIndex < (st.history.length : Int) - 1 then
    match st.history[(st.historyIndex + 1).toNat]? with
    | some nextState =>
        { st with live := nextState.addrs
                  replacements := nextState.repl
                  historyIndex := st.historyIndex + 1 }
    | none => st
  else st

/-- The pointer/button events the reference-semantics model consumes.  The
browser delivers these in any order consistent with the DOM: in particular a
drag whose mouseup happens outside the canvas produces no `mouseUp` event
(the handler is bound to the canvas only and no mouse capture is taken), so
`undoEv` can arrive while `isDrawing` is still set. -/
inductive HEvent
  | mouseDown (pos : ℚ × ℚ)
  | mouseMove (pos : ℚ × ℚ)
  | mouseUp
  | undoEv
  | redoEv

/-- One step of the reference-semantics machine. -/
def hStep (st : HeapState) : HEvent → HeapState
  | HEvent.mouseDown pos => hMouseDown st pos
  | HEvent.mouseMove pos => hMouseMove st pos
  | HEvent.mouseUp => hMouseUp st
  | HEvent.undoEv => hUndo st
  | HEvent.redoEv => hRedo st

/-- Run the reference-semantics machine from the empty state. -/
def hRun (evs : List HEvent) : HeapState :=
  evs.foldl hStep hInit

/-- The event sequence exhibiting snapshot corruption: two committed
drags, then a third drag whose mouseup happens outside the canvas (so no
`mouseUp` event reaches the canvas and `isDrawing` stays set), then the
Undo button (enabled: the cursor is at 1), then the pointer re-enters the
canvas and moves. -/
def staleDragTrace : List HEvent :=
  [HEvent.mouseDown (0, 0), HEvent.mouseUp,
   HEvent.mouseDown (1, 1), HEvent.mouseUp,
   HEvent.mouseDown (2, 2),
   HEvent.undoEv,
   HEvent.mouseMove (5, 7)]

/-! ## Theorems -/

/-- Pixels outside every region of the list are untouched by the
compositing fold, whatever has been painted so far. -/
theorem foldl_paintRegion_outside (source model : Bitmap) (px py : Nat) :
    ∀ (regions : List SelectionArea) (acc : Nat → Nat → Nat),
      (∀ s ∈ regions, ¬ regionContains s px py) →
      regions.foldl (paintRegion source model) acc px py = acc px py := by
  intro regions
  induction regions with
  | nil => intro acc _; rfl
  | cons r rest ih =>
      intro acc h
      simp only [List.foldl_cons]
      rw [ih]
      · simp [paintRegion, h r (by simp)]
      · intro s hs
        exact h s (by simp [hs])

/-- C1: for every source image, every model image (of any dimensions) and
every list of filtered regions, `composite` returns a bitmap with the
source's dimensions in which every pixel outside the union of the regions'
rectangles equals the corresponding source pixel, and compositing with an
empty region list returns the source bitmap itself. -/
theorem composite_dims_outside_pixels_empty :
    ∀ (source model : Bitmap) (regions : List SelectionArea),
      (composite source model regions).width = source.width ∧
      (composite source model regions).height = source.height ∧
      (∀ px py : Nat, (∀ s ∈ regions, ¬ regionContains s px py) →
        (composite source model regions).pix px py = source.pix px py) ∧
      composite source model [] = source := by
  intro source model regions
  refine ⟨rfl, rfl, ?_, ?_⟩
  · intro px py h
    exact foldl_paintRegion_outside source model px py regions source.pix h
  · cases source
    rfl

/-- A 4-by-4 source image with distinct pixel values, for witnesses. -/
def sampleSource : Bitmap := ⟨4, 4, fun x y => x + 4 * y⟩

/-- A 2-by-2 model image (dimensions differ from the source), for
witnesses. -/
def sampleModel : Bitmap := ⟨2, 2, fun _ _ => 99⟩

/-- A concrete region covering the box from (1,1) to (3,3). -/
def sampleRegion : SelectionArea := ⟨0, 1, 1, 2, 2⟩

/-- Witness for `composite_dims_outside_pixels_empty` at a concrete source,
model and region, evaluated at pixel (0,0), which lies outside the region. -/
theorem composite_dims_outside_pixels_empty_witness :
    (∀ s ∈ [sampleRegion], ¬ regionContains s 0 0) ∧
    (composite sampleSource sampleModel [sampleRegion]).pix 0 0 =
      sampleSource.pix 0 0 :=
  ⟨by decide,
   (composite_dims_outside_pixels_empty sampleSource sampleModel
      [sampleRegion]).2.2.1 0 0 (by decide)⟩

/-- C10: `undo` and `redo` never change the history log, and modify only
the cursor and the live selections and replacements: every other component
of the state (image, processing flag, result image, gesture flag, gesture
start position, id counter) is unchanged. -/
theorem undo_redo_touch_only_cursor_and_live :
    ∀ st : AppState,
      (undo st).history = st.history ∧
      (redo st).history = st.history ∧
      (undo st).image = st.image ∧
      (undo st).isProcessing = st.isProcessing ∧
      (undo st).resultImage = st.resultImage ∧
      (undo st).isDrawing = st.isDrawing ∧
      (undo st).startPos = st.startPos ∧
      (undo st).nextId = st.nextId ∧
      (redo st).image = st.image ∧
      (redo st).isProcessing = st.isProcessing ∧
      (redo st).resultImage = st.resultImage ∧
      (redo st).isDrawing = st.isDrawing ∧
      (redo st).startPos = st.startPos ∧
      (redo st).nextId = st.nextId := by
  intro st
  have hu : (undo st).history = st.history ∧ (undo st).image = st.image ∧
      (undo st).isProcessing = st.isProcessing ∧
      (undo st).resultImage = st.resultImage ∧
      (undo st).isDrawing = st.isDrawing ∧
      (undo st).startPos = st.startPos ∧ (undo st).nextId = st.nextId := by
    unfold undo
    split
    · split <;> simp
    · split <;> simp
  have hr : (redo st).history = st.history ∧ (redo st).image = st.image ∧
      (redo st).isProcessing = st.isProcessing ∧
      (redo st).resultImage = st.resultImage ∧
      (redo st).isDrawing = st.isDrawing ∧
      (redo st).startPos = st.startPos ∧ (redo st).nextId = st.nextId := by
    unfold redo
    split
    · split <;> simp
    · simp
  exact ⟨hu.1, hr.1, hu.2.1, hu.2.2.1, hu.2.2.2.1, hu.2.2.2.2.1,
    hu.2.2.2.2.2.1, hu.2.2.2.2.2.2, hr.2.1, hr.2.2.1, hr.2.2.2.1,
    hr.2.2.2.2.1, hr.2.2.2.2.2.1, hr.2.2.2.2.2.2⟩

/-- C7: while a gesture is active, a pointer move rewrites the last region's
rectangle to the normalized axis-aligned bounding box of the gesture start
and the current position (coordinate-wise minima for the corner, absolute
differences for the extent); the drag from (100,50) to (60,150) stores the
region (60,50,40,100); when no gesture is active a pointer move is a
no-op. -/
theorem mouseMove_bounding_box :
    ∀ (st : AppState) (pos : ℚ × ℚ),
      (st.isDrawing = false → onMouseMove st pos = st) ∧
      (∀ last, st.isDrawing = true → st.selections.getLast? = some last →
        (onMouseMove st pos).selections = st.selections.dropLast ++
          [{ last with
              x := min st.startPos.1 pos.1
              y := min st.startPos.2 pos.2
              w := |pos.1 - st.startPos.1|
              h := |pos.2 - st.startPos.2| }]) ∧
      (onMouseMove (onMouseDown initState (100, 50)) (60, 150)).selections =
        [⟨0, 60, 50, 40, 100⟩] := by
  intro st pos
  refine ⟨?_, ?_, ?_⟩
  · intro h
    simp [onMouseMove, h]
  · intro last hd hl
    simp [onMouseMove, hd, hl, jsMin_eq_min, jsAbs_eq_abs, min_def]
  · norm_num [onMouseMove, onMouseDown, initState, jsMin, jsAbs]

/-- Witness for `mouseMove_bounding_box`: in the initial state no gesture is
active, so a pointer move changes nothing. -/
theorem mouseMove_bounding_box_witness :
    initState.isDrawing = false ∧ onMouseMove initState (3, 4) = initState :=
  ⟨rfl, (mouseMove_bounding_box initState (3, 4)).1 rfl⟩

/-- C8: a mouse-down is a no-op on the state when a restore is in flight or
when ten regions already exist (in particular an 11th call with 10 regions
appends nothing); otherwise it appends exactly one zero-size region at the
pointer position and marks the gesture active. -/
theorem mouseDown_guards_and_append :
    ∀ (st : AppState) (pos : ℚ × ℚ),
      (st.isProcessing = true → onMouseDown st pos = st) ∧
      (st.selections.length = 10 → onMouseDown st pos = st) ∧
      (st.isProcessing = false → st.selections.length < 10 →
        (onMouseDown st pos).selections =
          st.selections ++ [⟨st.nextId, pos.1, pos.2, 0, 0⟩] ∧
        (onMouseDown st pos).isDrawing = true) := by
  intro st pos
  refine ⟨?_, ?_, ?_⟩
  · intro h
    simp [onMouseDown, h]
  · intro h
    unfold onMouseDown
    split
    · rfl
    · rw [if_pos (by omega)]
  · intro h1 h2
    have h3 : ¬ 10 ≤ st.selections.length := by omega
    constructor <;> simp [onMouseDown, h1, h3]

/-- Ten distinct one-pixel regions, for the region-limit witness. -/
def tenRegions : List SelectionArea :=
  (List.range 10).map (fun i => ⟨i, 0, 0, 1, 1⟩)

/-- A state holding the maximum number (10) of regions. -/
def tenRegionState : AppState := { initState with selections := tenRegions }

/-- Witness for `mouseDown_guards_and_append`: the 11th mouse-down on a
state with 10 regions leaves the state unchanged. -/
theorem mouseDown_guards_and_append_witness :
    tenRegionState.selections.length = 10 ∧
    onMouseDown tenRegionState (5, 5) = tenRegionState :=
  ⟨by decide, (mouseDown_guards_and_append tenRegionState (5, 5)).2.1 (by decide)⟩

/-- Core behaviour of a commit from any state whose history satisfies the
bounds: the log stays within 50 entries, the cursor lands exactly on the
newest entry, and that entry is the committed snapshot. -/
theorem pushToHistory_spec (st : AppState) (sel : List SelectionArea)
    (repl : List (Nat × String))
    (hlen : st.history.length ≤ 50)
    (hlo : -1 ≤ st.historyIndex)
    (hhi : st.historyIndex < (st.history.length : Int)) :
    (pushToHistory st sel repl).history.length ≤ 50 ∧
    (pushToHistory st sel repl).historyIndex =
      ((pushToHistory st sel repl).history.length : Int) - 1 ∧
    (pushToHistory st sel repl).history[(pushToHistory st sel repl).historyIndex.toNat]? =
      some ⟨sel, repl⟩ := by
  unfold pushToHistory
  have htv : ((st.historyIndex + 1).toNat : Int) = st.historyIndex + 1 := by omega
  have htle : (st.historyIndex + 1).toNat ≤ st.history.length := by omega
  have hlentr :
      (st.history.take (st.historyIndex + 1).toNat).length =
        (st.historyIndex + 1).toNat := by
    rw [List.length_take]
    omega
  have hconcat :=
    List.getElem?_concat_length (st.history.take (st.historyIndex + 1).toNat)
      (⟨sel, repl⟩ : HistoryState)
  rw [hlentr] at hconcat
  by_cases hcase :
      50 <
        (st.history.take (st.historyIndex + 1).toNat ++
          [(⟨sel, repl⟩ : HistoryState)]).length
  · rw [List.length_append, hlentr] at hcase
    have ht50 : (st.historyIndex + 1).toNat = 50 := by simp at hcase; omega
    have hidx : st.historyIndex = 49 := by omega
    simp only [if_pos (by rw [List.length_append, hlentr]; omega :
      50 < (st.history.take (st.historyIndex + 1).toNat ++
        [(⟨sel, repl⟩ : HistoryState)]).length)]
    have hmin : min (st.historyIndex + 1) 49 = (49 : Int) := by omega
    have hdlen :
        ((st.history.take (st.historyIndex + 1).toNat ++
          [(⟨sel, repl⟩ : HistoryState)]).drop 1).length = 50 := by
      rw [List.length_drop, List.length_append, hlentr, ht50,
        List.length_singleton]
    refine ⟨by rw [hdlen], by rw [hdlen, hmin]; norm_num, ?_⟩
    rw [hmin]
    have : ((49 : Int)).toNat = 49 := rfl
    rw [this, List.getElem?_drop]
    have h150 : 1 + 49 = (st.historyIndex + 1).toNat := by omega
    rw [h150, hconcat]
  · simp only [if_neg hcase]
    rw [List.length_append, hlentr] at hcase
    have ht49 : (st.historyIndex + 1).toNat ≤ 49 := by simp at hcase; omega
    have hmin : min (st.historyIndex + 1) 49 = st.historyIndex + 1 := by omega
    refine ⟨by rw [List.length_append, hlentr, List.length_singleton]; omega,
      ?_, ?_⟩
    · rw [List.length_append, hlentr, List.length_singleton, hmin]
      omega
    · rw [hmin]
      have : (st.historyIndex + 1).toNat = (st.historyIndex + 1).toNat := rfl
      rw [hconcat]

/-- The operations of the history subsystem as the spec's testable
properties quantify over them: a commit (the callers set the live state to
the committed pair and invoke `pushToHistory` with it, as `onMouseUp`,
`handleReplacementBlur` and `removeSelection` do), an undo, or a redo. -/
inductive HistOp where
  | commit (sel : List SelectionArea) (repl : List (Nat × String))
  | histUndo
  | histRedo

/-- One step of the history machine. -/
def stepHist (st : AppState) : HistOp → AppState
  | HistOp.commit sel repl =>
      pushToHistory { st with selections := sel, replacements := repl } sel repl
  | HistOp.histUndo => undo st
  | HistOp.histRedo => redo st

/-- Run a sequence of commit/undo/redo operations from the empty initial
state. -/
def runHist (ops : List HistOp) : AppState :=
  ops.foldl stepHist initState

/-- The history invariant: at most 50 snapshots, the cursor lies in
[-1, length-1], and whenever the cursor is non-negative the snapshot under
it is exactly the live state. -/
def HistInv (st : AppState) : Prop :=
  st.history.length ≤ 50 ∧
  -1 ≤ st.historyIndex ∧
  st.historyIndex < (st.history.length : Int) ∧
  (0 ≤ st.historyIndex →
    st.history[st.historyIndex.toNat]? =
      some ⟨st.selections, st.replacements⟩)

/-- The initial state satisfies the history invariant. -/
theorem histInv_init : HistInv initState := by
  refine ⟨by simp [initState], by simp [initState], by simp [initState], ?_⟩
  intro h
  simp [initState] at h

/-- Every commit, undo or redo preserves the history invariant. -/
theorem histInv_step (st : AppState) (op : HistOp) (h : HistInv st) :
    HistInv (stepHist st op) := by
  obtain ⟨h1, h2, h3, h4⟩ := h
  cases op with
  | commit sel repl =>
      simp only [stepHist]
      have hs := pushToHistory_spec
        { st with selections := sel, replacements := repl } sel repl
        (by simpa) (by simpa) (by simpa)
      have hsel :
          (pushToHistory { st with selections := sel, replacements := repl }
            sel repl).selections = sel := by
        simp [pushToHistory]
      have hrepl :
          (pushToHistory { st with selections := sel, replacements := repl }
            sel repl).replacements = repl := by
        simp [pushToHistory]
      refine ⟨hs.1, by omega, by omega, ?_⟩
      intro h0
      rw [hsel, hrepl]
      exact hs.2.2
  | histUndo =>
      unfold stepHist undo
      by_cases hpos : 0 < st.historyIndex
      · rw [if_pos hpos]
        have hlt : (st.historyIndex - 1).toNat < st.history.length := by omega
        have hgp := List.getElem?_eq_getElem hlt
        rw [hgp]
        refine ⟨by simpa, by simp; omega, by simp; omega, ?_⟩
        intro h0
        simp only []
        rw [hgp]
      · rw [if_neg hpos]
        by_cases h0 : st.historyIndex = 0
        · rw [if_pos h0]
          refine ⟨by simpa, by simp, by simp; omega, ?_⟩
          intro hcontra
          simp at hcontra
        · rw [if_neg h0]
          exact ⟨h1, h2, h3, h4⟩
  | histRedo =>
      unfold stepHist redo
      by_cases hlt : st.historyIndex < (st.history.length : Int) - 1
      · rw [if_pos hlt]
        have hlt2 : (st.historyIndex + 1).toNat < st.history.length := by omega
        have hgp := List.getElem?_eq_getElem hlt2
        rw [hgp]
        refine ⟨by simpa, by simp; omega, by simp; omega, ?_⟩
        intro h0
        simp only []
        rw [hgp]
      · rw [if_neg hlt]
        exact ⟨h1, h2, h3, h4⟩

/-- The history invariant holds after any run of commit/undo/redo
operations from an invariant-satisfying start state. -/
theorem histInv_foldl (ops : List HistOp) :
    ∀ st : AppState, HistInv st → HistInv (ops.foldl stepHist st) := by
  induction ops with
  | nil => intro st h; exact h
  | cons op rest ih =>
      intro st h
      exact ih _ (histInv_step st op h)

/-- C2: for every sequence of commit, undo and redo operations starting
from the empty history, the log never exceeds 50 snapshots and the cursor
stays in the interval [-1, length-1]. -/
theorem history_bounds_invariant :
    ∀ ops : List HistOp,
      (runHist ops).history.length ≤ 50 ∧
      -1 ≤ (runHist ops).historyIndex ∧
      (runHist ops).historyIndex ≤ ((runHist ops).history.length : Int) - 1 := by
  intro ops
  unfold runHist
  obtain ⟨ha, hb, hc, _⟩ := histInv_foldl ops initState histInv_init
  exact ⟨ha, hb, by omega⟩

/-- For any state satisfying the history invariant, a legal undo followed
by a legal redo is the identity on the whole state. -/
theorem redo_undo_of_inv (st : AppState) (hinv : HistInv st)
    (h1 : -1 < st.historyIndex)
    (h2 : (undo st).historyIndex < ((undo st).history.length : Int) - 1) :
    redo (undo st) = st := by
  obtain ⟨hlen, hlo, hhi, hlive⟩ := hinv
  have h0 : 0 ≤ st.historyIndex := by omega
  by_cases hc : 0 < st.historyIndex
  · have hlt : (st.historyIndex - 1).toNat < st.history.length := by omega
    obtain ⟨p, hgp⟩ : ∃ p, st.history[(st.historyIndex - 1).toNat]? = some p :=
      ⟨_, List.getElem?_eq_getElem hlt⟩
    have hu : undo st =
        { st with
            selections := p.selections
            replacements := p.replacements
            historyIndex := st.historyIndex - 1 } := by
      unfold undo
      rw [if_pos hc, hgp]
    rw [hu]
    unfold redo
    dsimp only
    rw [if_pos (by omega : st.historyIndex - 1 < (st.history.length : Int) - 1)]
    have hix : st.historyIndex - 1 + 1 = st.historyIndex := by omega
    rw [hix, hlive h0]
  · have hc0 : st.historyIndex = 0 := by omega
    have hu : undo st =
        { st with selections := [], replacements := [], historyIndex := -1 } := by
      unfold undo
      rw [if_neg hc, if_pos hc0]
    rw [hu]
    unfold redo
    dsimp only
    rw [if_pos (by omega : (-1 : Int) < (st.history.length : Int) - 1)]
    have hsc : ((-1 : Int) + 1).toNat = st.historyIndex.toNat := by omega
    rw [hsc, hlive h0]
    dsimp only
    rw [show (-1 : Int) + 1 = st.historyIndex from by omega]

/-- C3: after any sequence of commit/undo/redo operations, whenever an undo
is legal (cursor above -1) and the redo immediately after it is legal,
undo followed by redo restores exactly the selections and replacements that
held before the undo. -/
theorem undo_redo_roundtrip :
    ∀ ops : List HistOp,
      -1 < (runHist ops).historyIndex →
      (undo (runHist ops)).historyIndex <
        ((undo (runHist ops)).history.length : Int) - 1 →
      (redo (undo (runHist ops))).selections = (runHist ops).selections ∧
      (redo (undo (runHist ops))).replacements = (runHist ops).replacements := by
  intro ops h1 h2
  have hinv : HistInv (runHist ops) := by
    unfold runHist
    exact histInv_foldl ops initState histInv_init
  rw [redo_undo_of_inv (runHist ops) hinv h1 h2]
  exact ⟨rfl, rfl⟩

/-- A two-commit run used as the concrete roundtrip scenario. -/
def roundtripOps : List HistOp :=
  [HistOp.commit [⟨1, 0, 0, 2, 2⟩] [(1, "fix")], HistOp.commit [] []]

/-- Witness for `undo_redo_roundtrip`: after two commits both the undo and
the subsequent redo are legal, and the roundtrip restores the live state. -/
theorem undo_redo_roundtrip_witness :
    (-1 < (runHist roundtripOps).historyIndex) ∧
    ((undo (runHist roundtripOps)).historyIndex <
      ((undo (runHist roundtripOps)).history.length : Int) - 1) ∧
    ((redo (undo (runHist roundtripOps))).selections =
        (runHist roundtripOps).selections ∧
      (redo (undo (runHist roundtripOps))).replacements =
        (runHist roundtripOps).replacements) :=
  ⟨by decide, by decide,
    undo_redo_roundtrip roundtripOps (by decide) (by decide)⟩

/-- C4: from any state satisfying the history bounds, a commit truncates
the snapshots stored after the cursor, appends the new snapshot (dropping
the oldest entry when the length would exceed 50), advances the cursor to
the newest entry, and leaves redo unavailable (an immediate redo is a
no-op). -/
theorem commit_truncates_caps_and_advances :
    ∀ (st : AppState) (sel : List SelectionArea) (repl : List (Nat × String)),
      st.history.length ≤ 50 →
      -1 ≤ st.historyIndex →
      st.historyIndex < (st.history.length : Int) →
      ((pushToHistory st sel repl).history =
        (if 50 < (st.history.take (st.historyIndex + 1).toNat ++
            [(⟨sel, repl⟩ : HistoryState)]).length then
          (st.history.take (st.historyIndex + 1).toNat ++
            [(⟨sel, repl⟩ : HistoryState)]).drop 1
        else
          st.history.take (st.historyIndex + 1).toNat ++
            [(⟨sel, repl⟩ : HistoryState)])) ∧
      (pushToHistory st sel repl).historyIndex =
        ((pushToHistory st sel repl).history.length : Int) - 1 ∧
      redo (pushToHistory st sel repl) = pushToHistory st sel repl := by
  intro st sel repl hlen hlo hhi
  have hs := pushToHistory_spec st sel repl hlen hlo hhi
  refine ⟨rfl, hs.2.1, ?_⟩
  unfold redo
  rw [if_neg (by omega : ¬ (pushToHistory st sel repl).historyIndex <
    ((pushToHistory st sel repl).history.length : Int) - 1)]

/-- Witness for `commit_truncates_caps_and_advances`: committing from the
empty initial state satisfies the bounds and yields a one-entry log with
the cursor on it and redo unavailable. -/
theorem commit_truncates_caps_and_advances_witness :
    (initState.history.length ≤ 50 ∧ -1 ≤ initState.historyIndex ∧
      initState.historyIndex < (initState.history.length : Int)) ∧
    ((pushToHistory initState [] []).historyIndex =
        ((pushToHistory initState [] []).history.length : Int) - 1 ∧
      redo (pushToHistory initState [] []) = pushToHistory initState [] []) :=
  ⟨⟨by decide, by decide, by decide⟩,
    ⟨(commit_truncates_caps_and_advances initState [] [] (by decide) (by decide)
        (by decide)).2.1,
      (commit_truncates_caps_and_advances initState [] [] (by decide) (by decide)
        (by decide)).2.2⟩⟩

/-- A state with a loaded image but no region at all. -/
def noSelectionState : AppState := { initState with image := some "img" }

/-- C5 counterexample: the claimed equivalence "fails with
EmptyInstructionError iff no region has non-empty, non-whitespace
replacement text" is false at a state with a loaded image and an empty
region list: there every region (vacuously) lacks text, yet `handleRestore`
returns silently (`if (!image || selections.length === 0) return`) without
raising the empty-instruction error. -/
theorem emptyInstruction_iff_fails_on_empty_selections :
    ¬ (((handleRestore noSelectionState sampleSource (Except.ok [])).2 =
          RestoreOutcome.emptyInstruction) ↔
        ∀ s ∈ noSelectionState.selections,
          jsTrim (lookupRepl noSelectionState.replacements s.id) = "") := by
  decide

/-- C5 (amended): provided an image is loaded and at least one region
exists, the restore fails with the empty-instruction error iff no region
has non-empty, non-whitespace replacement text; the filter consults the
replacement text only, never geometry (a region is sent iff its trimmed
text is non-empty, whatever its rectangle); and the empty-instruction
outcome is decided before and independently of the external call. -/
theorem emptyInstruction_iff_no_text_given_selection :
    ∀ (st : AppState) (src : Bitmap) (resp : Except Unit (List ResponsePart)),
      st.image ≠ none → st.selections ≠ [] →
      (((handleRestore st src resp).2 = RestoreOutcome.emptyInstruction) ↔
        ∀ s ∈ st.selections, jsTrim (lookupRepl st.replacements s.id) = "") ∧
      (∀ s : SelectionArea,
        s ∈ filteredSelections st.selections st.replacements ↔
          s ∈ st.selections ∧ jsTrim (lookupRepl st.replacements s.id) ≠ "") ∧
      ((handleRestore st src resp).2 = RestoreOutcome.emptyInstruction →
        ∀ resp', handleRestore st src resp' = handleRestore st src resp) := by
  intro st src resp himg hsel
  have hguard : ¬ (st.image = none ∨ st.selections = []) := by
    rintro (h | h)
    · exact himg h
    · exact hsel h
  have hnil : filteredSelections st.selections st.replacements = [] ↔
      ∀ s ∈ st.selections, jsTrim (lookupRepl st.replacements s.id) = "" := by
    unfold filteredSelections
    rw [List.filter_eq_nil_iff]
    simp
  have hchar : ((handleRestore st src resp).2 =
      RestoreOutcome.emptyInstruction) ↔
      filteredSelections st.selections st.replacements = [] := by
    unfold handleRestore
    rw [if_neg hguard]
    by_cases hf : filteredSelections st.selections st.replacements = []
    · simp [hf]
    · rw [if_neg hf]
      cases resp with
      | error e => simp [hf]
      | ok parts =>
          cases hfi : firstImagePart parts with
          | none =>
              simp [hfi]
              exact hf
          | some aiImg =>
              simp [hfi]
              exact hf
  refine ⟨hchar.trans hnil, ?_, ?_⟩
  · intro s
    unfold filteredSelections
    rw [List.mem_filter]
    simp
  · intro h resp'
    have hf : filteredSelections st.selections st.replacements = [] := hchar.mp h
    unfold handleRestore
    rw [if_neg hguard, if_neg hguard, if_pos hf, if_pos hf]

/-- A state with a loaded image and a single zero-area region carrying
replacement text: the zero-area drag of the spec's example. -/
def zeroAreaState : AppState :=
  { initState with
      image := some "img"
      selections := [⟨7, 10, 10, 0, 0⟩]
      replacements := [(7, "A")] }

/-- Witness for `emptyInstruction_iff_no_text_given_selection` at the
zero-area state: its hypotheses hold and the equivalence follows. -/
theorem emptyInstruction_iff_no_text_given_selection_witness :
    (zeroAreaState.image ≠ none ∧ zeroAreaState.selections ≠ []) ∧
    (((handleRestore zeroAreaState sampleSource (Except.ok [])).2 =
        RestoreOutcome.emptyInstruction) ↔
      ∀ s ∈ zeroAreaState.selections,
        jsTrim (lookupRepl zeroAreaState.replacements s.id) = "") :=
  ⟨⟨by decide, by decide⟩,
    (emptyInstruction_iff_no_text_given_selection zeroAreaState sampleSource
      (Except.ok []) (by decide) (by decide)).1⟩

/-- C9: on every run of the restore that does not fully succeed — the
silent no-op guards, the empty-instruction error, a failed external call,
or a response without an image payload — the result image is left exactly
as it was; conversely a changed result image only happens on a fully
successful run. -/
theorem restore_no_partial_result :
    ∀ (st : AppState) (src : Bitmap) (resp : Except Unit (List ResponsePart)),
      ((handleRestore st src resp).2 ≠ RestoreOutcome.success →
        (handleRestore st src resp).1.resultImage = st.resultImage) ∧
      ((handleRestore st src resp).1.resultImage ≠ st.resultImage →
        (handleRestore st src resp).2 = RestoreOutcome.success) := by
  intro st src resp
  by_cases hg : st.image = none ∨ st.selections = []
  · have heq : handleRestore st src resp = (st, RestoreOutcome.noOp) := by
      unfold handleRestore
      rw [if_pos hg]
    rw [heq]
    exact ⟨fun _ => rfl, fun hcon => absurd rfl hcon⟩
  · by_cases hf : filteredSelections st.selections st.replacements = []
    · have heq : handleRestore st src resp =
          (st, RestoreOutcome.emptyInstruction) := by
        unfold handleRestore
        rw [if_neg hg, if_pos hf]
      rw [heq]
      exact ⟨fun _ => rfl, fun hcon => absurd rfl hcon⟩
    · cases resp with
      | error e =>
          have heq : handleRestore st src (Except.error e) =
              ({ st with isProcessing := false }, RestoreOutcome.failed) := by
            unfold handleRestore
            rw [if_neg hg, if_neg hf]
          rw [heq]
          exact ⟨fun _ => rfl, fun hcon => absurd rfl hcon⟩
      | ok parts =>
          cases hfi : firstImagePart parts with
          | none =>
              have heq : handleRestore st src (Except.ok parts) =
                  ({ st with isProcessing := false }, RestoreOutcome.failed) := by
                unfold handleRestore
                rw [if_neg hg, if_neg hf]
                simp [hfi]
              rw [heq]
              exact ⟨fun _ => rfl, fun hcon => absurd rfl hcon⟩
          | some aiImg =>
              have heq : handleRestore st src (Except.ok parts) =
                  ({ st with
                      resultImage := some (composite src aiImg
                        (filteredSelections st.selections st.replacements))
                      isProcessing := false }, RestoreOutcome.success) := by
                unfold handleRestore
                rw [if_neg hg, if_neg hf]
                simp [hfi]
              rw [heq]
              exact ⟨fun hcon => absurd rfl hcon, fun _ => rfl⟩

/-- Witness for `restore_no_partial_result`: a failed external call at the
zero-area state (which passes all local guards) leaves the result image
untouched. -/
theorem restore_no_partial_result_witness :
    ((handleRestore zeroAreaState sampleSource (Except.error ())).2 ≠
      RestoreOutcome.success) ∧
    (handleRestore zeroAreaState sampleSource (Except.error ())).1.resultImage =
      zeroAreaState.resultImage :=
  ⟨by decide,
    (restore_no_partial_result zeroAreaState sampleSource
      (Except.error ())).1 (by decide)⟩

/-- C6 evidence: running `staleDragTrace` leaves a history snapshot whose
stored region objects no longer carry the values they had when the snapshot
was committed — the pointer move after the undo wrote, through the live
alias installed by `undo`, into a region object owned by the first
snapshot. -/
theorem stale_drag_corrupts_snapshot :
    ∃ snap ∈ (hRun staleDragTrace).history,
      derefAll (hRun staleDragTrace).heap snap.addrs ≠
        snap.committedSelections := by
  refine ⟨⟨[1], [], [⟨0, 0, 0, 0, 0⟩], []⟩, ?_, ?_⟩
  · simp [hRun, staleDragTrace, hStep, hMouseDown, hMouseMove, hMouseUp,
      hPush, hUndo, hInit, derefAll, heapGet, heapSet, List.find?,
      List.range_succ]
  · simp [hRun, staleDragTrace, hStep, hMouseDown, hMouseMove, hMouseUp,
      hPush, hUndo, hInit, derefAll, heapGet, heapSet, List.find?,
      List.range_succ]
    norm_num [jsMin, jsAbs]
